import Mathlib

set_option linter.dupNamespace false

/-!
Shallow embedding of `src/apps/src/lib/wallet/keys.rs`: wallet keypair
storage with an optional password-encrypted envelope and a prefixed
hex text codec.

Modelling conventions:
- Bytes are `Nat` (each `< 256` where it matters), byte vectors are `List Nat`,
  strings are `List Char`.
- The crypto primitives (orion `kdf`, orion `aead`), the `hex` crate and the
  ed25519 `Keypair` type are external collaborators of this unit; they are
  modelled from the spec's contracts (sections 4.1 and 6 of the spec), with
  the AEAD idealized: a key is determined by (salt, password), sealing under a
  key is invertible by opening under the same key only, and the sealed output
  is `nonce ++ plaintext ++ tag` with the fixed overhead of 24 + 16 bytes
  (orion's XChaCha20-Poly1305 layout).
- Rust panics (e.g. `split_at` with an out-of-range index) are modelled by
  `Option`: `none` is a panic, `some r` a normal return of `r`.
-/

/-- Modelled from the spec: a password, represented by its byte string
(the code derives the key from `password.as_bytes()`). -/
abbrev Password := List Nat

/-- Modelled from the spec: the fixed KDF salt length. `encryption_salt`
returns `kdf::Salt::default()`, whose length is the fixed default (16 bytes
in orion); the code reads this length with `encryption_salt().len()`. -/
def SALT_LEN : Nat := 16

/-- Modelled from the spec: orion's AEAD prepends a 24-byte nonce. -/
def AEAD_NONCE_LEN : Nat := 24

/-- Modelled from the spec: orion's AEAD appends a 16-byte Poly1305 tag. -/
def AEAD_TAG_LEN : Nat := 16

/-- Fixed AEAD overhead: ciphertext length minus plaintext length. -/
def AEAD_OVERHEAD : Nat := AEAD_NONCE_LEN + AEAD_TAG_LEN

/-- Modelled from the spec: an ed25519 keypair is an opaque 64-byte value
with a canonical binary serialization (32-byte secret then 32-byte public). -/
abbrev Keypair := {bs : List Nat // bs.length = 64 ∧ ∀ b ∈ bs, b < 256}

/-- Modelled from the spec: borsh serialization of a keypair
(`keypair.try_to_vec()`), total and returning the canonical 64 bytes. -/
def Keypair.try_to_vec (kp : Keypair) : List Nat := kp.val

/-- Modelled from the spec: borsh deserialization of a keypair
(`Keypair::try_from_slice`), succeeding exactly on canonical 64-byte inputs. -/
def Keypair.tryFromSlice (bs : List Nat) : Option Keypair :=
  if h : bs.length = 64 ∧ ∀ b ∈ bs, b < 256 then some ⟨bs, h⟩ else none

/-- Mirrors `AtomicKeypair`, the `Arc<Mutex<Keypair>>` wrapper. Cloning an
`Arc` shares the same underlying storage and copies no key material, and
every access takes the mutex and sees a committed value, so in this
sequential embedding a handle is identified with the keypair value it
guards and `clone` is the identity. -/
abbrev AtomicKeypair := Keypair

/-- Mirrors `impl Clone for AtomicKeypair`: `Arc::clone`, which returns a
handle to the same storage (identity in this embedding). -/
def AtomicKeypair.clone (kp : AtomicKeypair) : AtomicKeypair := kp

/-- Mirrors `AtomicKeypair::to_bytes`: serialize the guarded keypair. -/
def AtomicKeypair.to_bytes (kp : AtomicKeypair) : List Nat := kp.val

/-- Modelled from the spec: the derived symmetric key. The KDF
(`kdf::derive_key`, Argon2 with fixed cost parameters) is idealized as
collision-free, so a derived key is determined by and determines the
(salt, password) pair that produced it. -/
structure SecretKey where
  salt : List Nat
  password : Password
  deriving DecidableEq, Repr

/-- Mirrors `encryption_key`: derive the AEAD key from a salt and a
password. Modelled from the spec: `kdf::Password::from_slice` and
`kdf::derive_key` are total on the inputs this unit passes (any failure is
an `expect` panic treated as unreachable by the code). -/
def encryption_key (salt : List Nat) (password : Password) : SecretKey :=
  ⟨salt, password⟩

/-- Injective encoding of a byte list into a `Nat`, used to let the
idealized AEAD tag determine the sealing key. -/
def encodeList : List Nat → Nat
  | [] => 0
  | a :: t => Nat.pair a (encodeList t) + 1

/-- Injective code of a derived key, the content of the idealized tag. -/
def keyCode (k : SecretKey) : Nat :=
  Nat.pair (encodeList k.salt) (encodeList k.password)

/-- Modelled from the spec: the idealized authentication tag produced when
sealing under key `k` (16 model bytes, determined by the key). -/
def aead_tag (k : SecretKey) : List Nat :=
  keyCode k :: List.replicate (AEAD_TAG_LEN - 1) 0

/-- Modelled from the spec: `aead::seal(key, plaintext)`, authenticated
encryption with output `nonce ++ plaintext ++ tag` and the fixed overhead
`AEAD_OVERHEAD`. Total on this unit's inputs (failure is an `expect` panic
treated as unreachable by the code). -/
def aead_seal (k : SecretKey) (pt : List Nat) : List Nat :=
  List.replicate AEAD_NONCE_LEN 0 ++ pt ++ aead_tag k

/-- Modelled from the spec: `aead::open(key, ciphertext)`, authenticated
decryption. Fails (`none`) when the input is too short to contain the nonce
and tag, or when the tag does not authenticate under `key` (wrong password
or corrupted data). -/
def aead_open (k : SecretKey) (c : List Nat) : Option (List Nat) :=
  if AEAD_OVERHEAD ≤ c.length ∧ c.drop (c.length - AEAD_TAG_LEN) = aead_tag k
  then some ((c.drop AEAD_NONCE_LEN).take (c.length - AEAD_OVERHEAD))
  else none

/-- Modelled from the spec: `kdf::Salt::from_slice`, succeeding on slices of
the fixed salt length. In `decrypt` it is only ever applied to the
`SALT_LEN`-byte region produced by `split_at`. -/
def kdfSaltFromSlice (bs : List Nat) : Option (List Nat) :=
  if bs.length = SALT_LEN then some bs else none

/-- Mirrors `struct EncryptedKeypair(Vec<u8>)`: the envelope byte vector. -/
abbrev EncryptedKeypair := List Nat

/-- Mirrors `EncryptedKeypair::new`: generate a salt, derive the key, borsh
serialize the keypair, seal it, and prepend the salt. The fresh random salt
drawn by `encryption_salt()` is passed explicitly as `salt`. -/
def EncryptedKeypair.new (keypair : Keypair) (password : Password)
    (salt : List Nat) : EncryptedKeypair :=
  salt ++ aead_seal (encryption_key salt password) (Keypair.try_to_vec keypair)

/-- Mirrors `enum DecryptionError`. -/
inductive DecryptionError where
  | BadSalt
  | DecryptionError
  | DeserializingError
  | NotDecrypting
  deriving DecidableEq, Repr

/-- Mirrors `EncryptedKeypair::decrypt`. The source splits the envelope with
`self.0.split_at(salt_len)`, which panics (`none` here) when the envelope is
shorter than `SALT_LEN`; otherwise it parses the salt (`BadSalt` on
failure), derives the key, opens the ciphertext (`DecryptionError` on
failure) and borsh-deserializes the plaintext (`DeserializingError` on
failure). -/
def EncryptedKeypair.decrypt (ek : EncryptedKeypair) (password : Password) :
    Option (Except DecryptionError Keypair) :=
  if SALT_LEN ≤ ek.length then
    some (match kdfSaltFromSlice (ek.take SALT_LEN) with
      | none => Except.error DecryptionError.BadSalt
      | some salt =>
        match aead_open (encryption_key salt password) (ek.drop SALT_LEN) with
        | none => Except.error DecryptionError.DecryptionError
        | some decrypted_data =>
          match Keypair.tryFromSlice decrypted_data with
          | none => Except.error DecryptionError.DeserializingError
          | some kp => Except.ok kp)
  else none

/-- Mirrors `enum StoredKeypair`: an encrypted envelope or a raw handle. -/
inductive StoredKeypair where
  | Encrypted (e : EncryptedKeypair)
  | Raw (k : AtomicKeypair)

/-- Mirrors `StoredKeypair::new`: with a password, lock the handle, encrypt
its keypair and return the `Encrypted` variant together with the original
handle; with no password, return `Raw` of a clone of the handle together
with the handle. The fresh salt used by encryption is passed as `salt`. -/
def StoredKeypair.new (keypair : AtomicKeypair) (password : Option Password)
    (salt : List Nat) : StoredKeypair × AtomicKeypair :=
  match password with
  | some pw =>
      (StoredKeypair.Encrypted (EncryptedKeypair.new keypair pw salt), keypair)
  | none => (StoredKeypair.Raw (AtomicKeypair.clone keypair), keypair)

/-- Mirrors `StoredKeypair::get`. The `password` argument is the string the
external `read_password` prompt would return; the second component counts
how many times `read_password` is invoked on the taken path (1 only when an
encrypted keypair is actually decrypted). A `none` first component is a
propagated panic from `decrypt`. -/
def StoredKeypair.get (s : StoredKeypair) (decrypt : Bool)
    (password : Password) :
    Option (Except DecryptionError AtomicKeypair) × Nat :=
  match s with
  | StoredKeypair.Encrypted encrypted_keypair =>
    if decrypt then
      (EncryptedKeypair.decrypt encrypted_keypair password, 1)
    else (some (Except.error DecryptionError.NotDecrypting), 0)
  | StoredKeypair.Raw keypair =>
      (some (Except.ok (AtomicKeypair.clone keypair)), 0)

/-- Mirrors `StoredKeypair::is_encrypted`. -/
def StoredKeypair.is_encrypted (s : StoredKeypair) : Bool :=
  match s with
  | StoredKeypair.Encrypted _ => true
  | StoredKeypair.Raw _ => false

/-- Mirrors `const UNENCRYPTED_KEY_PREFIX`. -/
def UNENCRYPTED_KEY_PREFIX : List Char := "unencrypted:".data

/-- Mirrors `const ENCRYPTED_KEY_PREFIX`. -/
def ENCRYPTED_KEY_PREFIX : List Char := "encrypted:".data

/-- Mirrors `str::strip_prefix`: `some` of the remainder when `s` starts
with `pre`, else `none`. -/
def stripPrefix : List Char → List Char → Option (List Char)
  | [], s => some s
  | _ :: _, [] => none
  | p :: pre, c :: s => if c = p then stripPrefix pre s else none

/-- Hex value of one digit character, case-insensitive on decode
(mirrors the `hex` crate). -/
def hexVal (c : Char) : Option Nat :=
  if '0' ≤ c ∧ c ≤ '9' then some (c.toNat - '0'.toNat)
  else if 'a' ≤ c ∧ c ≤ 'f' then some (c.toNat - 'a'.toNat + 10)
  else if 'A' ≤ c ∧ c ≤ 'F' then some (c.toNat - 'A'.toNat + 10)
  else none

/-- Lowercase hex digit for a value below 16 (mirrors the `hex` crate's
encoder alphabet). -/
def hexDigit (n : Nat) : Char :=
  if n < 10 then Char.ofNat ('0'.toNat + n) else Char.ofNat ('a'.toNat + n - 10)

/-- Mirrors `hex::encode`: two lowercase digits per byte, no separators. -/
def hexEncode : List Nat → List Char
  | [] => []
  | b :: t => hexDigit (b / 16) :: hexDigit (b % 16) :: hexEncode t

/-- Mirrors `hex::FromHexError` (the variants `decode` can produce). -/
inductive FromHexError where
  | InvalidHexCharacter (c : Char) (index : Nat)
  | OddLength
  deriving DecidableEq, Repr

/-- Modelled from the spec: the `Display` text of a `hex::FromHexError`
(`err.to_string()`), carrying the underlying parse failure description. -/
def FromHexError.describe : FromHexError → List Char
  | FromHexError.InvalidHexCharacter c i =>
      "Invalid character ".data ++ [c] ++ " at position ".data ++ (Nat.repr i).data
  | FromHexError.OddLength => "Odd number of digits".data

/-- Digit-pair scanner of `hex::decode`, reporting the byte index of the
first invalid character. Only called on even-length input. -/
def hexDecodeGo : List Char → Nat → Except FromHexError (List Nat)
  | [], _ => Except.ok []
  | [_], _ => Except.error FromHexError.OddLength
  | c1 :: c2 :: rest, i =>
    match hexVal c1, hexVal c2 with
    | none, _ => Except.error (FromHexError.InvalidHexCharacter c1 i)
    | some _, none => Except.error (FromHexError.InvalidHexCharacter c2 (i + 1))
    | some h, some l =>
      match hexDecodeGo rest (i + 2) with
      | Except.ok t => Except.ok ((16 * h + l) :: t)
      | Except.error e => Except.error e

/-- Mirrors `hex::decode`: reject odd length first, then scan digit pairs. -/
def hexDecode (s : List Char) : Except FromHexError (List Nat) :=
  if s.length % 2 = 0 then hexDecodeGo s 0 else Except.error FromHexError.OddLength

/-- Mirrors `impl Display for EncryptedKeypair`: `hex::encode` of the
envelope bytes. -/
def EncryptedKeypair.display (ek : EncryptedKeypair) : List Char :=
  hexEncode ek

/-- Mirrors `impl FromStr for EncryptedKeypair`: `hex::decode(s).map(Self)`. -/
def EncryptedKeypair.fromStr (s : List Char) : Except FromHexError EncryptedKeypair :=
  hexDecode s

/-- Modelled from the spec: the error of the external `Keypair::from_str`
(bad hex, or bytes that do not form a valid keypair). -/
inductive ParseKeypairError where
  | HexError (e : FromHexError)
  | InvalidKeypair
  deriving DecidableEq, Repr

/-- Modelled from the spec: the `Display` text of a keypair parse error
(`err.to_string()`). -/
def ParseKeypairError.describe : ParseKeypairError → List Char
  | ParseKeypairError.HexError e => e.describe
  | ParseKeypairError.InvalidKeypair => "Invalid keypair bytes".data

/-- Modelled from the spec: the external `Keypair::from_str`, parsing the
canonical lowercase hex text form of the 64 keypair bytes. -/
def Keypair.fromStr (s : List Char) : Except ParseKeypairError Keypair :=
  match hexDecode s with
  | Except.error e => Except.error (ParseKeypairError.HexError e)
  | Except.ok bs =>
    match Keypair.tryFromSlice bs with
    | some kp => Except.ok kp
    | none => Except.error ParseKeypairError.InvalidKeypair

/-- Modelled from the spec: the external `Display` of a keypair (through the
`AtomicKeypair` `Display`, which locks and delegates): the canonical
lowercase hex text of its 64 bytes. -/
def Keypair.display (kp : Keypair) : List Char := hexEncode kp.val

/-- Mirrors `enum DeserializeStoredKeypairError`; the invalid-string variant
carries the underlying error's `to_string()`. -/
inductive DeserializeStoredKeypairError where
  | InvalidStoredKeypairString (msg : List Char)
  | MissingPrefix
  deriving DecidableEq, Repr

/-- Mirrors `impl Serialize for StoredKeypair`: a prefixed string, because
the containing config format has no native enums. -/
def StoredKeypair.serialize : StoredKeypair → List Char
  | StoredKeypair.Encrypted encrypted =>
      ENCRYPTED_KEY_PREFIX ++ EncryptedKeypair.display encrypted
  | StoredKeypair.Raw raw => UNENCRYPTED_KEY_PREFIX ++ Keypair.display raw

/-- Mirrors `impl Deserialize for StoredKeypair`: try the unencrypted prefix
first, then the encrypted prefix, else fail with `MissingPrefix`; a matched
prefix whose remainder fails to parse yields `InvalidStoredKeypairString`
with the underlying error's description. -/
def StoredKeypair.deserialize (s : List Char) :
    Except DeserializeStoredKeypairError StoredKeypair :=
  match stripPrefix UNENCRYPTED_KEY_PREFIX s with
  | some raw =>
    match Keypair.fromStr raw with
    | Except.ok keypair => Except.ok (StoredKeypair.Raw keypair)
    | Except.error err =>
        Except.error
          (DeserializeStoredKeypairError.InvalidStoredKeypairString err.describe)
  | none =>
    match stripPrefix ENCRYPTED_KEY_PREFIX s with
    | some encrypted =>
      match EncryptedKeypair.fromStr encrypted with
      | Except.ok ek => Except.ok (StoredKeypair.Encrypted ek)
      | Except.error err =>
          Except.error
            (DeserializeStoredKeypairError.InvalidStoredKeypairString err.describe)
    | none => Except.error DeserializeStoredKeypairError.MissingPrefix

/-- Well-formedness of the byte contents of a stored keypair: the encrypted
envelope is a vector of bytes (`Vec<u8>` in the source guarantees this). -/
def StoredKeypair.wfBytes : StoredKeypair → Prop
  | StoredKeypair.Encrypted e => ∀ b ∈ e, b < 256
  | StoredKeypair.Raw _ => True

/-- Concrete 64-byte test keypair (all-zero bytes), used by witnesses. -/
def testKeypair : Keypair := ⟨List.replicate 64 0, by decide⟩

/-- Concrete fixed-length test salt, used by witnesses. -/
def testSalt : List Nat := List.replicate 16 7

/-- Second concrete fixed-length test salt, used by witnesses. -/
def testSalt2 : List Nat := List.replicate 16 9

/-- The injective list code separates `nil` from `cons` and is injective. -/
theorem encodeList_injective : ∀ {xs ys : List Nat},
    encodeList xs = encodeList ys → xs = ys := by
  intro xs
  induction xs with
  | nil =>
    intro ys h
    cases ys with
    | nil => rfl
    | cons b u => simp only [encodeList] at h; omega
  | cons a t ih =>
    intro ys h
    cases ys with
    | nil => simp only [encodeList] at h; omega
    | cons b u =>
      simp only [encodeList] at h
      have h2 := Nat.add_right_cancel h
      obtain ⟨hab, htu⟩ := Nat.pair_eq_pair.mp h2
      rw [hab, ih htu]

/-- The key code determines the derived key. -/
theorem keyCode_injective {k1 k2 : SecretKey} (h : keyCode k1 = keyCode k2) :
    k1 = k2 := by
  cases k1 with
  | mk s1 p1 =>
    cases k2 with
    | mk s2 p2 =>
      unfold keyCode at h
      obtain ⟨hs, hp⟩ := Nat.pair_eq_pair.mp h
      simp only [SecretKey.mk.injEq]
      exact ⟨encodeList_injective hs, encodeList_injective hp⟩

/-- Length of a sealed ciphertext: plaintext plus the fixed overhead. -/
theorem aead_seal_length (k : SecretKey) (pt : List Nat) :
    (aead_seal k pt).length = pt.length + AEAD_OVERHEAD := by
  simp only [aead_seal, aead_tag, List.length_append, List.length_replicate,
    List.length_cons, AEAD_OVERHEAD, AEAD_NONCE_LEN, AEAD_TAG_LEN]
  omega

/-- The trailing `AEAD_TAG_LEN` bytes of a sealed ciphertext are the tag of
the sealing key. -/
theorem aead_seal_drop_tag (k : SecretKey) (pt : List Nat) :
    (aead_seal k pt).drop ((aead_seal k pt).length - AEAD_TAG_LEN)
      = aead_tag k := by
  rw [aead_seal_length]
  have hidx : pt.length + AEAD_OVERHEAD - AEAD_TAG_LEN
      = AEAD_NONCE_LEN + pt.length := by
    simp only [AEAD_OVERHEAD, AEAD_NONCE_LEN, AEAD_TAG_LEN]; omega
  rw [hidx]
  show (List.replicate AEAD_NONCE_LEN 0 ++ pt ++ aead_tag k).drop
    (AEAD_NONCE_LEN + pt.length) = aead_tag k
  exact List.drop_left' (by simp)

/-- Opening a sealed ciphertext under the sealing key returns the
plaintext. -/
theorem aead_open_seal (k : SecretKey) (pt : List Nat) :
    aead_open k (aead_seal k pt) = some pt := by
  have hlen := aead_seal_length k pt
  have hcond : AEAD_OVERHEAD ≤ (aead_seal k pt).length ∧
      (aead_seal k pt).drop ((aead_seal k pt).length - AEAD_TAG_LEN)
        = aead_tag k :=
    ⟨by omega, aead_seal_drop_tag k pt⟩
  unfold aead_open
  rw [if_pos hcond]
  have hdropn : (aead_seal k pt).drop AEAD_NONCE_LEN = pt ++ aead_tag k := by
    show ((List.replicate AEAD_NONCE_LEN 0 ++ pt) ++ aead_tag k).drop
      AEAD_NONCE_LEN = pt ++ aead_tag k
    rw [List.append_assoc]
    exact List.drop_left' (by simp)
  have hidx : (aead_seal k pt).length - AEAD_OVERHEAD = pt.length := by omega
  rw [hdropn, hidx, List.take_left' rfl]

/-- Opening a sealed ciphertext under any other key fails. -/
theorem aead_open_seal_wrong_key {k k2 : SecretKey} (pt : List Nat)
    (hne : k2 ≠ k) : aead_open k2 (aead_seal k pt) = none := by
  unfold aead_open
  rw [if_neg]
  rintro ⟨-, htag⟩
  rw [aead_seal_drop_tag k pt] at htag
  unfold aead_tag at htag
  have h1 : keyCode k = keyCode k2 := by injection htag
  exact hne (keyCode_injective h1).symm

/-- Borsh round trip: deserializing a keypair's serialization returns it. -/
theorem tryFromSlice_try_to_vec (kp : Keypair) :
    Keypair.tryFromSlice (Keypair.try_to_vec kp) = some kp := by
  unfold Keypair.tryFromSlice Keypair.try_to_vec
  rw [dif_pos kp.2]

/-- Parsing a full-length salt region succeeds. -/
theorem kdfSaltFromSlice_of_length {bs : List Nat} (h : bs.length = SALT_LEN) :
    kdfSaltFromSlice bs = some bs := by
  unfold kdfSaltFromSlice
  rw [if_pos h]

/-- Decrypting a fresh envelope built over salt `salt` with the password
`p2` reaches the AEAD with the key derived from `salt` and `p2` and the
original sealed ciphertext. -/
theorem decrypt_new_unfold (kp : Keypair) (p1 p2 : Password)
    (salt : List Nat) (hs : salt.length = SALT_LEN) :
    EncryptedKeypair.decrypt (EncryptedKeypair.new kp p1 salt) p2 =
      some (match aead_open (encryption_key salt p2)
              (aead_seal (encryption_key salt p1) (Keypair.try_to_vec kp)) with
        | none => Except.error DecryptionError.DecryptionError
        | some decrypted_data =>
          match Keypair.tryFromSlice decrypted_data with
          | none => Except.error DecryptionError.DeserializingError
          | some kp2 => Except.ok kp2) := by
  have htake : (EncryptedKeypair.new kp p1 salt).take SALT_LEN = salt := by
    unfold EncryptedKeypair.new
    exact List.take_left' hs
  have hdrop : (EncryptedKeypair.new kp p1 salt).drop SALT_LEN
      = aead_seal (encryption_key salt p1) (Keypair.try_to_vec kp) := by
    unfold EncryptedKeypair.new
    exact List.drop_left' hs
  have hle : SALT_LEN ≤ (EncryptedKeypair.new kp p1 salt).length := by
    unfold EncryptedKeypair.new
    rw [List.length_append, hs]
    omega
  unfold EncryptedKeypair.decrypt
  rw [if_pos hle, htake, hdrop, kdfSaltFromSlice_of_length hs]

/-- Round trip of the envelope: decrypting with the same password returns
the original keypair. -/
theorem decrypt_new_same_password (kp : Keypair) (p : Password)
    (salt : List Nat) (hs : salt.length = SALT_LEN) :
    EncryptedKeypair.decrypt (EncryptedKeypair.new kp p salt) p =
      some (Except.ok kp) := by
  rw [decrypt_new_unfold kp p p salt hs]
  simp only [aead_open_seal, tryFromSlice_try_to_vec]

/-- Decoding the hex digit of any value below 16 recovers the value. -/
theorem hexVal_hexDigit : ∀ n < 16, hexVal (hexDigit n) = some n := by decide

/-- Hex encoding doubles the length. -/
theorem hexEncode_length : ∀ bs : List Nat, (hexEncode bs).length = 2 * bs.length := by
  intro bs
  induction bs with
  | nil => rfl
  | cons b t ih => simp only [hexEncode, List.length_cons, ih]; omega

/-- The digit-pair scanner inverts the encoder on byte lists, at every
starting index. -/
theorem hexDecodeGo_hexEncode : ∀ (bs : List Nat), (∀ b ∈ bs, b < 256) →
    ∀ i, hexDecodeGo (hexEncode bs) i = Except.ok bs := by
  intro bs
  induction bs with
  | nil => intro _ _; rfl
  | cons b t ih =>
    intro h i
    have hb : b < 256 := h b (List.mem_cons_self b t)
    have h1 : hexVal (hexDigit (b / 16)) = some (b / 16) :=
      hexVal_hexDigit (b / 16) (by omega)
    have h2 : hexVal (hexDigit (b % 16)) = some (b % 16) :=
      hexVal_hexDigit (b % 16) (by omega)
    have ht : hexDecodeGo (hexEncode t) (i + 2) = Except.ok t :=
      ih (fun x hx => h x (List.mem_cons_of_mem b hx)) (i + 2)
    simp only [hexEncode, hexDecodeGo, h1, h2, ht]
    have hbb : 16 * (b / 16) + b % 16 = b := by omega
    rw [hbb]

/-- Hex codec round trip on byte lists. -/
theorem hexDecode_hexEncode (bs : List Nat) (h : ∀ b ∈ bs, b < 256) :
    hexDecode (hexEncode bs) = Except.ok bs := by
  unfold hexDecode
  rw [if_pos (by rw [hexEncode_length]; omega)]
  exact hexDecodeGo_hexEncode bs h 0

/-- Stripping a prefix off that very prefix followed by a remainder yields
the remainder. -/
theorem stripPrefix_append (pre rest : List Char) :
    stripPrefix pre (pre ++ rest) = some rest := by
  induction pre with
  | nil => rfl
  | cons p t ih => simp [stripPrefix, ih]

/-- A string bearing the encrypted prefix does not bear the unencrypted
prefix. -/
theorem stripPrefix_unencrypted_of_encrypted (rest : List Char) :
    stripPrefix UNENCRYPTED_KEY_PREFIX (ENCRYPTED_KEY_PREFIX ++ rest)
      = none := rfl

/-- Borsh deserialization of a keypair's own bytes returns the keypair. -/
theorem tryFromSlice_val (kp : Keypair) :
    Keypair.tryFromSlice kp.val = some kp := by
  unfold Keypair.tryFromSlice
  rw [dif_pos kp.2]

/-- C1: for every keypair, password and fixed-length fresh salt, decrypting
the envelope produced by `EncryptedKeypair.new` with the same password
succeeds and returns a keypair whose bytes equal the original's. -/
theorem c1_password_roundtrip (kp : Keypair) (p : Password)
    (salt : List Nat) (hs : salt.length = SALT_LEN) :
    EncryptedKeypair.decrypt (EncryptedKeypair.new kp p salt) p
      = some (Except.ok kp) :=
  decrypt_new_same_password kp p salt hs

/-- Witness for C1 at the all-zero keypair, password bytes `[99]` and the
concrete test salt. -/
theorem c1_password_roundtrip_witness :
    testSalt.length = SALT_LEN ∧
    EncryptedKeypair.decrypt (EncryptedKeypair.new testKeypair [99] testSalt)
      [99] = some (Except.ok testKeypair) :=
  ⟨rfl, c1_password_roundtrip testKeypair [99] testSalt rfl⟩

/-- C2: for every keypair, fixed-length salt and distinct passwords `p1`
and `p2`, decrypting the envelope produced under `p1` with `p2` returns
exactly `Err(DecryptionError::DecryptionError)` (so it never returns any
keypair's bytes). -/
theorem c2_wrong_password_fails (kp : Keypair) (p1 p2 : Password)
    (salt : List Nat) (hs : salt.length = SALT_LEN) (hne : p1 ≠ p2) :
    EncryptedKeypair.decrypt (EncryptedKeypair.new kp p1 salt) p2
      = some (Except.error DecryptionError.DecryptionError) := by
  rw [decrypt_new_unfold kp p1 p2 salt hs]
  have hkne : encryption_key salt p2 ≠ encryption_key salt p1 := by
    intro h
    exact hne (congrArg SecretKey.password h).symm
  simp only [aead_open_seal_wrong_key _ hkne]

/-- Witness for C2 at the all-zero keypair, passwords `[0]` and `[1]` and
the concrete test salt. -/
theorem c2_wrong_password_fails_witness :
    testSalt.length = SALT_LEN ∧ ([0] : Password) ≠ [1] ∧
    EncryptedKeypair.decrypt (EncryptedKeypair.new testKeypair [0] testSalt)
      [1] = some (Except.error DecryptionError.DecryptionError) :=
  ⟨rfl, by decide,
    c2_wrong_password_fails testKeypair [0] [1] testSalt rfl (by decide)⟩

/-- C3: deserializing the serialization of any stored keypair (either
variant, with byte contents) returns the same stored keypair: same variant,
byte-equal contents. -/
theorem c3_codec_roundtrip (s : StoredKeypair) (h : s.wfBytes) :
    StoredKeypair.deserialize (StoredKeypair.serialize s) = Except.ok s := by
  cases s with
  | Encrypted e =>
    simp only [StoredKeypair.serialize, StoredKeypair.deserialize,
      EncryptedKeypair.display, EncryptedKeypair.fromStr,
      stripPrefix_unencrypted_of_encrypted, stripPrefix_append,
      hexDecode_hexEncode e h]
  | Raw kp =>
    simp only [StoredKeypair.serialize, StoredKeypair.deserialize,
      Keypair.display, Keypair.fromStr, stripPrefix_append,
      hexDecode_hexEncode kp.val kp.2.2, tryFromSlice_val]

/-- Witness for C3 at the encrypted stored keypair with envelope bytes
`[0, 255]`. -/
theorem c3_codec_roundtrip_witness :
    StoredKeypair.deserialize
        (StoredKeypair.serialize (StoredKeypair.Encrypted [0, 255]))
      = Except.ok (StoredKeypair.Encrypted [0, 255]) :=
  c3_codec_roundtrip (StoredKeypair.Encrypted [0, 255])
    (by show ∀ b ∈ ([0, 255] : List Nat), b < 256; decide)

/-- C4 (code bug): the claim says `decrypt` returns a recoverable
`DecryptionError` value on every too-short envelope, but on an envelope
shorter than `SALT_LEN` the source's `split_at(salt_len)` panics; here the
empty envelope with password bytes `[112, 119]` evaluates to the panic
marker `none` instead of a `BadSalt`/`DecryptionError` result. -/
theorem c4_short_envelope_panics :
    EncryptedKeypair.decrypt [] [112, 119] = none := rfl

/-- C5: on an encrypted stored keypair, `get` with `decrypt = false`
returns `Err(NotDecrypting)` and invokes `read_password` zero times. -/
theorem c5_not_decrypting_no_prompt (e : EncryptedKeypair) (p : Password) :
    StoredKeypair.get (StoredKeypair.Encrypted e) false p
      = (some (Except.error DecryptionError.NotDecrypting), 0) := rfl

/-- C6: deserializing a string that bears neither recognized prefix fails
with `MissingPrefix`; a string bearing a recognized prefix whose remainder
fails to parse fails with `InvalidStoredKeypairString` carrying the
underlying parse error's description (both branches). -/
theorem c6_deserialize_errors :
    (∀ s : List Char,
      stripPrefix UNENCRYPTED_KEY_PREFIX s = none →
      stripPrefix ENCRYPTED_KEY_PREFIX s = none →
      StoredKeypair.deserialize s
        = Except.error DeserializeStoredKeypairError.MissingPrefix) ∧
    (∀ (payload : List Char) (e : ParseKeypairError),
      Keypair.fromStr payload = Except.error e →
      StoredKeypair.deserialize (UNENCRYPTED_KEY_PREFIX ++ payload)
        = Except.error
          (DeserializeStoredKeypairError.InvalidStoredKeypairString
            e.describe)) ∧
    (∀ (payload : List Char) (e : FromHexError),
      hexDecode payload = Except.error e →
      StoredKeypair.deserialize (ENCRYPTED_KEY_PREFIX ++ payload)
        = Except.error
          (DeserializeStoredKeypairError.InvalidStoredKeypairString
            e.describe)) := by
  refine ⟨?_, ?_, ?_⟩
  · intro s h1 h2
    simp only [StoredKeypair.deserialize, h1, h2]
  · intro payload e he
    simp only [StoredKeypair.deserialize, stripPrefix_append, he]
  · intro payload e he
    simp only [StoredKeypair.deserialize, stripPrefix_unencrypted_of_encrypted,
      stripPrefix_append, EncryptedKeypair.fromStr, he]

/-- Witness for C6: the prefixless string `"foo"`, the unencrypted payload
`"zz"` (bad hex) and the encrypted payload `"a"` (odd length). -/
theorem c6_deserialize_errors_witness :
    StoredKeypair.deserialize "foo".data
      = Except.error DeserializeStoredKeypairError.MissingPrefix ∧
    StoredKeypair.deserialize (UNENCRYPTED_KEY_PREFIX ++ "zz".data)
      = Except.error
        (DeserializeStoredKeypairError.InvalidStoredKeypairString
          (ParseKeypairError.HexError
            (FromHexError.InvalidHexCharacter 'z' 0)).describe) ∧
    StoredKeypair.deserialize (ENCRYPTED_KEY_PREFIX ++ "a".data)
      = Except.error
        (DeserializeStoredKeypairError.InvalidStoredKeypairString
          (FromHexError.OddLength).describe) :=
  ⟨c6_deserialize_errors.1 "foo".data rfl rfl,
    c6_deserialize_errors.2.1 "zz".data
      (ParseKeypairError.HexError (FromHexError.InvalidHexCharacter 'z' 0)) rfl,
    c6_deserialize_errors.2.2 "a".data FromHexError.OddLength rfl⟩

/-- C7: wrapping a handle with no password returns the `Raw` variant holding
that very handle (the clone shares the same storage, identity in this
embedding) together with the handle, and `get` on it succeeds for both
values of `decrypt` with a handle of the same bytes, prompting zero
times. -/
theorem c7_raw_wrap_unwrap (kp : AtomicKeypair) (salt : List Nat) :
    StoredKeypair.new kp none salt = (StoredKeypair.Raw kp, kp) ∧
    ∀ (d : Bool) (p : Password),
      StoredKeypair.get (StoredKeypair.new kp none salt).1 d p
        = (some (Except.ok kp), 0) :=
  ⟨rfl, fun _ _ => rfl⟩

/-- C8: the envelope is laid out as `salt ++ ciphertext` with the AEAD
output as ciphertext, and its total length is the fixed salt length plus 64
(the serialized keypair) plus the fixed AEAD overhead. -/
theorem c8_envelope_layout (kp : Keypair) (p : Password) (salt : List Nat)
    (hs : salt.length = SALT_LEN) :
    EncryptedKeypair.new kp p salt
      = salt ++ aead_seal (encryption_key salt p) (Keypair.try_to_vec kp) ∧
    (EncryptedKeypair.new kp p salt).length
      = SALT_LEN + 64 + AEAD_OVERHEAD := by
  refine ⟨rfl, ?_⟩
  unfold EncryptedKeypair.new
  rw [List.length_append, hs, aead_seal_length]
  have h64 : (Keypair.try_to_vec kp).length = 64 := kp.2.1
  rw [h64]
  omega

/-- Witness for C8 at the all-zero keypair, password bytes `[99]` and the
concrete test salt. -/
theorem c8_envelope_layout_witness :
    testSalt.length = SALT_LEN ∧
    (EncryptedKeypair.new testKeypair [99] testSalt).length
      = SALT_LEN + 64 + AEAD_OVERHEAD :=
  ⟨rfl, (c8_envelope_layout testKeypair [99] testSalt rfl).2⟩

/-- C9: two encryptions of the same keypair under the same password with
distinct fixed-length salts produce different envelope bytes, and each
decrypts under that password back to the original keypair. -/
theorem c9_salt_uniqueness (kp : Keypair) (p : Password) (s1 s2 : List Nat)
    (h1 : s1.length = SALT_LEN) (h2 : s2.length = SALT_LEN) (hne : s1 ≠ s2) :
    EncryptedKeypair.new kp p s1 ≠ EncryptedKeypair.new kp p s2 ∧
    EncryptedKeypair.decrypt (EncryptedKeypair.new kp p s1) p
      = some (Except.ok kp) ∧
    EncryptedKeypair.decrypt (EncryptedKeypair.new kp p s2) p
      = some (Except.ok kp) := by
  refine ⟨?_, decrypt_new_same_password kp p s1 h1,
    decrypt_new_same_password kp p s2 h2⟩
  intro heq
  apply hne
  have htake := congrArg (List.take SALT_LEN) heq
  rwa [EncryptedKeypair.new, EncryptedKeypair.new, List.take_left' h1,
    List.take_left' h2] at htake

/-- Witness for C9 at the all-zero keypair, password bytes `[99]` and the
two concrete test salts. -/
theorem c9_salt_uniqueness_witness :
    testSalt.length = SALT_LEN ∧ testSalt2.length = SALT_LEN ∧
    testSalt ≠ testSalt2 ∧
    EncryptedKeypair.new testKeypair [99] testSalt
      ≠ EncryptedKeypair.new testKeypair [99] testSalt2 :=
  ⟨rfl, rfl, by decide,
    (c9_salt_uniqueness testKeypair [99] testSalt testSalt2 rfl rfl
      (by decide)).1⟩

/-- C10: a string of the encrypted prefix followed by any valid hex payload
(however short, the empty payload included) deserializes successfully to
the `Encrypted` variant — decoding validates no envelope length; an
envelope shorter than the salt length fails only at decrypt time (where the
source in fact panics, modelled as `none`). -/
theorem c10_encrypted_decode_no_length_check (payload : List Char)
    (bs : List Nat) (h : hexDecode payload = Except.ok bs) :
    StoredKeypair.deserialize (ENCRYPTED_KEY_PREFIX ++ payload)
      = Except.ok (StoredKeypair.Encrypted bs) ∧
    ∀ p : Password, bs.length < SALT_LEN →
      EncryptedKeypair.decrypt bs p = none := by
  constructor
  · simp only [StoredKeypair.deserialize, stripPrefix_unencrypted_of_encrypted,
      stripPrefix_append, EncryptedKeypair.fromStr, h]
  · intro p hlen
    unfold EncryptedKeypair.decrypt
    rw [if_neg (by omega)]

/-- Witness for C10 at the empty hex payload: `"encrypted:"` alone decodes
to an empty envelope, and decrypting that envelope reaches the panic. -/
theorem c10_encrypted_decode_no_length_check_witness :
    StoredKeypair.deserialize (ENCRYPTED_KEY_PREFIX ++ [])
      = Except.ok (StoredKeypair.Encrypted []) ∧
    EncryptedKeypair.decrypt [] [] = none :=
  ⟨(c10_encrypted_decode_no_length_check [] [] rfl).1,
    (c10_encrypted_decode_no_length_check [] [] rfl).2 [] (by decide)⟩
